import Mathlib

/-!
Verification development for the spreadsheet-to-Markdown / result-extraction
program in `src/app.py`.

The two core functions are embedded shallowly:

* `excel_to_markdown` (app.py lines 38-89): combines the sheets of a workbook
  into per-sheet Markdown sections plus one unified table tagged with a
  `CustProg` column, returning `(markdown, combined_df, sheet_names)`.
* `extract_result_only` (app.py lines 91-145): three-tier heuristic extraction
  of a result string from free-form model output.

Python strings are modelled as `String` (whose `data` field is a `List Char`),
and the Python `str` operations used by the source (`split`, `strip`,
`startswith`, substring test `in`, `join`, `split(kw, 1)`) are given explicit
executable models on `List Char` below.  Whitespace is modelled by the ASCII
fragment of Python's `str.strip` character class.
-/

/-- Model of the character class stripped by Python `str.strip()`
(ASCII fragment: space, tab, newline, carriage return, vertical tab,
form feed). -/
def pyIsSpace (c : Char) : Bool :=
  c == ' ' || c == '\t' || c == '\n' || c == '\r' || c == '\x0b' || c == '\x0c'

/-- Model of Python `str.strip()`: drop leading and trailing whitespace. -/
def stripL (l : List Char) : List Char :=
  ((l.dropWhile pyIsSpace).reverse.dropWhile pyIsSpace).reverse

/-- Model of Python `sep.join(pieces)` (on character lists). -/
def joinSep (sep : List Char) : List (List Char) → List Char
  | [] => []
  | [x] => x
  | x :: y :: t => x ++ sep ++ joinSep sep (y :: t)

/-- Worker for `pySplit`.  The `skip` counter consumes the remaining
characters of a separator occurrence that was already matched, which keeps
the recursion structural (so that concrete inputs evaluate by `rfl`). -/
def pySplitGo (sep : List Char) : List Char → Nat → List (List Char)
  | [], _ => [[]]
  | _ :: rest, skip + 1 => pySplitGo sep rest skip
  | c :: rest, 0 =>
    if sep.isPrefixOf (c :: rest) then
      [] :: pySplitGo sep rest (sep.length - 1)
    else
      match pySplitGo sep rest 0 with
      | [] => [[c]]
      | h :: t => (c :: h) :: t

/-- Model of Python `s.split(sep)` for a non-empty separator `sep`:
non-overlapping left-to-right splitting, keeping empty pieces. -/
def pySplit (sep s : List Char) : List (List Char) :=
  pySplitGo sep s 0

/-- Model of the Python substring test `needle in hay`. -/
def isSubstrOfL (needle : List Char) : List Char → Bool
  | [] => needle.isEmpty
  | c :: rest => needle.isPrefixOf (c :: rest) || isSubstrOfL needle rest

/-- Model of Python `s.split(sep, 1)[1]`: the text after the first occurrence
of `sep` in `s`, or `none` when `sep` does not occur (i.e. when the Python
split yields a single piece). -/
def afterFirst (sep : List Char) : List Char → Option (List Char)
  | [] => if sep.isEmpty then some [] else none
  | c :: rest =>
    if sep.isPrefixOf (c :: rest) then some ((c :: rest).drop sep.length)
    else afterFirst sep rest

/-- Model of Python `s.startswith("#")`. -/
def startsWithHash : List Char → Bool
  | '#' :: _ => true
  | _ => false

/-! ### The extractor (`extract_result_only`, app.py lines 91-145) -/

/-- The fixed keyword list `result_keywords` of app.py lines 95-106. -/
def result_keywords : List String :=
  ["結果:", "回答:", "結論:", "答え:", "要約:", "まとめ:",
   "Result:", "Answer:", "Conclusion:", "Summary:"]

/-- `any(keyword in line_stripped for keyword in result_keywords)`
(app.py line 117). -/
def hasMarker (kws : List String) (ls : List Char) : Bool :=
  kws.any fun k => isSubstrOfL k.data ls

/-- The inner `for keyword in result_keywords: ... break` loop of app.py
lines 120-125: find the first keyword (in list order) occurring in the
stripped line, append the text after its first occurrence if that text is
non-empty after stripping, and stop. -/
def keywordLoop (ls : List Char) : List String → List (List Char)
  | [] => []
  | kw :: kws =>
    if isSubstrOfL kw.data ls then
      match afterFirst kw.data ls with
      | some rest => if (stripL rest).isEmpty then [] else [stripL rest]
      | none => []
    else keywordLoop ls kws

/-- The main `for line in lines` loop of app.py lines 113-132, returning the
accumulated `result_lines`.  A keyword line contributes via `keywordLoop` and
always leaves the loop in capturing state (`continue` after `capturing =
True`); while capturing, a keyword-free line stops the loop if blank or
starting with `#` (`break`) and is otherwise appended stripped. -/
def extractLoop (kws : List String) : List (List Char) → Bool → List (List Char)
  | [], _ => []
  | line :: rest, capturing =>
    if hasMarker kws (stripL line) then
      keywordLoop (stripL line) kws ++ extractLoop kws rest true
    else if capturing then
      if (stripL line).isEmpty || startsWithHash (stripL line) then []
      else stripL line :: extractLoop kws rest capturing
    else
      extractLoop kws rest capturing

/-- A stripped line stops an ongoing capture: it contains no marker and is
blank or starts with `#` (the `break` of app.py lines 130-131; the marker
test comes first in the loop, so marker lines never stop capture). -/
def stopsCapture (kws : List String) (ls : List Char) : Bool :=
  !hasMarker kws ls && (ls.isEmpty || startsWithHash ls)

/-- What one stripped line adds to the capture set while capturing: marker
lines contribute through the keyword loop, marker-free lines are appended
as they stand (already stripped). -/
def lineContribution (kws : List String) (ls : List Char) : List (List Char) :=
  if hasMarker kws ls then keywordLoop ls kws else [ls]

/-- Tier 1 of the extractor: `result_lines` after the scanning loop
(app.py lines 109-132). -/
def resultLinesTier1 (s : String) : List (List Char) :=
  extractLoop result_keywords (pySplit ['\n'] s.data) false

/-- Tier 2 preprocessing (app.py line 136):
`[p.strip() for p in gemini_response.split('\n\n') if p.strip()]`. -/
def paragraphsOf (s : String) : List (List Char) :=
  ((pySplit ['\n', '\n'] s.data).map stripL).filter fun p => !p.isEmpty

/-- `extract_result_only` (app.py lines 91-145): tier 1 marker-anchored
capture, tier 2 last non-empty paragraph, tier 3 second-to-last sentence by
`。` (or the whole text when no `。` occurs); the collected lines are joined
with newlines. -/
def extract_result_only (s : String) : String :=
  let r1 := resultLinesTier1 s
  let r2 :=
    if r1.isEmpty then
      match (paragraphsOf s).getLast? with
      | some p => [p]
      | none => []
    else r1
  let r3 :=
    if r2.isEmpty then
      let sentences := pySplit ['。'] s.data
      [if sentences.length > 1 then
         sentences.getD (sentences.length - 2) [] ++ ['。']
       else s.data]
    else r2
  String.mk (joinSep ['\n'] r3)

example : extract_result_only "途中の説明\n\n結果: 売上トップはA\n\n次のセクション" = "売上トップはA" := by decide
example : extract_result_only "段落1\n\n段落2\n\n段落3" = "段落3" := by decide
example : extract_result_only "説明のみで終わる文章です。" = "説明のみで終わる文章です。" := by decide
example : extract_result_only "" = "" := by decide
example : extract_result_only "結果:" = "結果:" := by decide
example : extract_result_only "結果: A\n結論: B\n C \n\nD" = "A\nB\nC" := by decide

/-! ### The sheet combiner (`excel_to_markdown`, app.py lines 38-89) -/

/-- A spreadsheet cell value as it sits in a DataFrame: either a (stringified)
scalar or the null marker (`NaN`). -/
abbrev Cell := Option String

/-- One sheet as produced by `pd.read_excel`: the sheet name, the column
names of the resulting DataFrame, and its rows (each row aligned with
`cols`). -/
structure SourceTable where
  label : String
  cols : List String
  rows : List (List Cell)
deriving DecidableEq

/-- `df.empty` (app.py line 53): a DataFrame is empty when either axis has
length zero. -/
def SourceTable.isEmpty (t : SourceTable) : Bool :=
  t.rows.isEmpty || t.cols.isEmpty

/-- A DataFrame derived during combination (tagged sheet or concatenation
result). -/
structure Frame where
  cols : List String
  rows : List (List Cell)
deriving DecidableEq

/-- `df.insert(0, 'CustProg', sheet_name)` on a copy (app.py lines 57-58):
prepend the `CustProg` column holding the sheet label. -/
def tagFrame (t : SourceTable) : Frame :=
  ⟨"CustProg" :: t.cols, t.rows.map fun r => (some t.label : Cell) :: r⟩

/-- The value a row (keyed by `cols`) holds for column `c`: the entry at the
first occurrence of `c` in `cols`, or the null marker when `c` is absent. -/
def getCell (cols : List String) (row : List Cell) (c : String) : Cell :=
  match cols, row with
  | [], _ => none
  | _ :: _, [] => none
  | c0 :: cols', v :: row' => if c0 = c then v else getCell cols' row' c

/-- Column union in order of first appearance, as `pd.concat` (with the
default `sort=False`) computes the result columns. -/
def unionCols (ls : List (List String)) : List String :=
  ls.foldl (fun acc cs => acc ++ cs.filter fun c => !acc.contains c) []

/-- `pd.concat(combined_data, ignore_index=True)` (app.py line 76): outer
join on the column sets in order of first appearance; every row is reindexed
to the unified columns, with the null marker filling columns absent from the
row's own frame. -/
def concatFrames (dfs : List Frame) : Frame :=
  let cols := unionCols (dfs.map (·.cols))
  ⟨cols, dfs.flatMap fun df => df.rows.map fun r => cols.map (getCell df.cols r)⟩

/-- Rendering of one cell: scalars print themselves, the null marker renders
as an empty cell (simplified rendering, see `mdTable`). -/
def cellStr : Cell → String
  | some s => s
  | none => ""

/-- Model of `DataFrame.to_markdown(index=False)` (app.py lines 69 and 82):
pipe-delimited header row, dash separator row, one line per record.  The
cell padding and alignment colons produced by tabulate are presentation
detail and are not modelled. -/
def mdTable (f : Frame) : String :=
  "| " ++ String.intercalate " | " f.cols ++ " |\n" ++
  "|" ++ String.join (f.cols.map fun _ => " --- |") ++ "\n" ++
  String.join (f.rows.map fun r =>
    "| " ++ String.intercalate " | " (r.map cellStr) ++ " |\n")

/-- The Markdown section emitted for one retained sheet
(app.py lines 63-72). -/
def sheetSection (t : SourceTable) : String :=
  "## " ++ t.label ++ "\n\n" ++
  "**データ件数**: " ++ toString t.rows.length ++ " 行\n\n" ++
  (if !((tagFrame t).rows.isEmpty || (tagFrame t).cols.isEmpty) then
     mdTable (tagFrame t) ++ "\n\n"
   else "") ++
  "---\n\n"

/-- The final unified-data section (app.py lines 79-83).  Note that the sheet
count printed here is `len(sheet_names)`, the number of ALL sheets of the
workbook, empty ones included. -/
def unifiedSection (df : Frame) (sheet_names : List String) : String :=
  "## 全シート統合データ\n\n" ++
  "**総データ件数**: " ++ toString df.rows.length ++ " 行\n" ++
  "**シート数**: " ++ toString sheet_names.length ++ " シート" ++ "\n\n" ++
  mdTable df ++ "\n\n"

/-- The failure modes of the pure fragment of `excel_to_markdown` (both
surface in the source as an exception caught by the handler at app.py lines
87-89, which reports an error and returns `(None, None, None)`):

* `emptyInput`: no sheet was retained, so `combined_df` is never assigned and
  the `return` at line 85 raises `NameError`;
* `custProgConflict`: a retained sheet already has a `CustProg` column, so
  `df.insert(0, 'CustProg', ...)` at line 58 raises `ValueError`. -/
inductive CombineError where
  | emptyInput
  | custProgConflict
deriving DecidableEq

/-- The pure fragment of `excel_to_markdown` (app.py lines 38-89), taking the
already-read sheets in workbook order: skip empty sheets, tag each retained
sheet with `CustProg`, emit a Markdown section per retained sheet followed by
the unified section, concatenate the tagged frames, and return
`(markdown_content, combined_df, sheet_names)`. -/
def excel_to_markdown (sheets : List SourceTable) :
    Except CombineError (String × Frame × List String) :=
  let sheet_names := sheets.map (·.label)
  let retained := sheets.filter fun t => !t.isEmpty
  if retained.any (fun t => t.cols.contains "CustProg") then
    .error .custProgConflict
  else if retained.isEmpty then
    .error .emptyInput
  else
    let combined_df := concatFrames (retained.map tagFrame)
    let markdown_content :=
      String.join (retained.map sheetSection) ++
      unifiedSection combined_df sheet_names
    .ok (markdown_content, combined_df, sheet_names)

/-- The Markdown document of a successful run (`""` on failure). -/
def mdOf (sheets : List SourceTable) : String :=
  match excel_to_markdown sheets with
  | .ok r => r.1
  | .error _ => ""

/-- The unified table of a successful run (the empty frame on failure). -/
def combinedOf (sheets : List SourceTable) : Frame :=
  match excel_to_markdown sheets with
  | .ok r => r.2.1
  | .error _ => ⟨[], []⟩

/-- The returned sheet-name list of a successful run (`[]` on failure). -/
def labelsOf (sheets : List SourceTable) : List String :=
  match excel_to_markdown sheets with
  | .ok r => r.2.2
  | .error _ => []

/-- The sheet owning each row of the unified table, in order: each retained
sheet repeated once per row. -/
def rowOriginTables (sheets : List SourceTable) : List SourceTable :=
  (sheets.filter fun t => !t.isEmpty).flatMap fun t => t.rows.map fun _ => t

example :
    (excel_to_markdown [⟨"Empty", [], []⟩, ⟨"Data", ["A"], [[some "1"]]⟩]).toOption.map
      (fun r => r.2.2) = some ["Empty", "Data"] := by decide

example :
    (combinedOf [⟨"E", ["X"], []⟩, ⟨"D", ["Y"], [[some "1"]]⟩]).cols
      = ["CustProg", "Y"] := by decide

example : excel_to_markdown [] = .error .emptyInput := rfl
example : excel_to_markdown [⟨"S", [], []⟩] = .error .emptyInput := rfl

example :
    (combinedOf [⟨"S1", ["A", "B"], [[some "1", some "2"]]⟩,
                 ⟨"S2", ["B", "C"], [[some "3", some "4"]]⟩]).rows
      = [[some "S1", some "1", some "2", none],
         [some "S2", none, some "3", some "4"]] := by decide

/-! ### Lemmas about the string primitives -/

theorem stripL_nil : stripL [] = [] := rfl

theorem stripL_eq_nil {l : List Char} (h : stripL l = []) : ∀ c ∈ l, pyIsSpace c := by
  unfold stripL at h
  rw [List.reverse_eq_nil_iff, List.dropWhile_eq_nil_iff] at h
  have hdrop : ∀ c ∈ (l.dropWhile pyIsSpace), pyIsSpace c := by
    intro c hc
    exact h c (List.mem_reverse.mpr hc)
  intro c hc
  rw [← List.takeWhile_append_dropWhile pyIsSpace l] at hc
  rcases List.mem_append.mp hc with h1 | h2
  · exact List.mem_takeWhile_imp h1
  · exact hdrop c h2

theorem joinSep_cons_head (sep : List Char) (c : Char) (h : List Char)
    (t : List (List Char)) :
    joinSep sep ((c :: h) :: t) = c :: joinSep sep (h :: t) := by
  cases t <;> simp [joinSep]

theorem joinSep_cons_nil_of_ne (sep : List Char) {L : List (List Char)} (h : L ≠ []) :
    joinSep sep ([] :: L) = sep ++ joinSep sep L := by
  cases L with
  | nil => exact absurd rfl h
  | cons y t => simp [joinSep]

theorem mem_joinSep {sep : List Char} {L : List (List Char)} {c : Char}
    (h : c ∈ joinSep sep L) : (∃ x ∈ L, c ∈ x) ∨ c ∈ sep := by
  induction L with
  | nil => simp [joinSep] at h
  | cons x t ih =>
    cases t with
    | nil =>
      simp only [joinSep] at h
      exact Or.inl ⟨x, by simp, h⟩
    | cons y t2 =>
      simp only [joinSep, List.mem_append] at h
      rcases h with (hx | hsep) | hrest
      · exact Or.inl ⟨x, by simp, hx⟩
      · exact Or.inr hsep
      · rcases ih hrest with ⟨z, hz, hcz⟩ | hs
        · exact Or.inl ⟨z, by simp [hz], hcz⟩
        · exact Or.inr hs

theorem joinSep_ne_nil {sep : List Char} {L : List (List Char)} (hL : L ≠ [])
    (hall : ∀ x ∈ L, x ≠ []) : joinSep sep L ≠ [] := by
  cases L with
  | nil => exact absurd rfl hL
  | cons x t =>
    cases t with
    | nil => exact hall x (by simp)
    | cons y t2 =>
      simp only [joinSep, ne_eq, List.append_eq_nil]
      intro ⟨⟨hx, _⟩, _⟩
      exact hall x (by simp) hx

theorem isPrefixOf_exists {l s : List Char} (h : l.isPrefixOf s = true) :
    ∃ t, s = l ++ t := by
  induction l generalizing s with
  | nil => exact ⟨s, rfl⟩
  | cons a as ih =>
    cases s with
    | nil => simp [List.isPrefixOf] at h
    | cons b bs =>
      simp only [List.isPrefixOf, Bool.and_eq_true, beq_iff_eq] at h
      obtain ⟨t, ht⟩ := ih h.2
      exact ⟨t, by simp [h.1, ht]⟩

theorem isPrefixOf_self_append (l t : List Char) : l.isPrefixOf (l ++ t) = true := by
  induction l with
  | nil => simp [List.isPrefixOf]
  | cons a as ih => simp [List.isPrefixOf, ih]

theorem isSubstrOfL_nil_left (t : List Char) : isSubstrOfL [] t = true := by
  cases t <;> simp [isSubstrOfL, List.isPrefixOf]

theorem isSubstrOfL_append_right {p : List Char} (s : List Char) {t : List Char}
    (h : isSubstrOfL p t = true) : isSubstrOfL p (s ++ t) = true := by
  induction s with
  | nil => simpa
  | cons c s' ih =>
    simp only [List.cons_append, isSubstrOfL, Bool.or_eq_true]
    exact Or.inr ih

theorem isSubstrOfL_self_append (p t : List Char) : isSubstrOfL p (p ++ t) = true := by
  cases p with
  | nil => exact isSubstrOfL_nil_left _
  | cons d p' =>
    simp only [List.cons_append, isSubstrOfL, Bool.or_eq_true]
    exact Or.inl (isPrefixOf_self_append _ _)

theorem pySplitGo_skip (sep : List Char) :
    ∀ (s : List Char) (k : Nat), pySplitGo sep s k = pySplitGo sep (s.drop k) 0 := by
  intro s
  induction s with
  | nil => intro k; cases k <;> simp [pySplitGo]
  | cons c rest ih =>
    intro k
    cases k with
    | zero => simp
    | succ k => simpa [pySplitGo] using ih k

theorem pySplitGo_ne_nil (sep : List Char) :
    ∀ (s : List Char) (k : Nat), pySplitGo sep s k ≠ [] := by
  intro s
  induction s with
  | nil => intro k; cases k <;> simp [pySplitGo]
  | cons c rest ih =>
    intro k
    cases k with
    | succ k => simpa [pySplitGo] using ih k
    | zero =>
      simp only [pySplitGo]
      by_cases hp : sep.isPrefixOf (c :: rest) = true
      · simp [hp]
      · simp only [hp]
        cases heq : pySplitGo sep rest 0 with
        | nil => exact absurd heq (ih 0)
        | cons h t => simp

theorem joinSep_pySplit {sep : List Char} (hsep : sep ≠ []) :
    ∀ s, joinSep sep (pySplit sep s) = s := by
  suffices haux : ∀ n s, List.length s ≤ n → joinSep sep (pySplit sep s) = s by
    intro s; exact haux s.length s le_rfl
  intro n
  induction n with
  | zero =>
    intro s hs
    rw [Nat.le_zero, List.length_eq_zero] at hs
    subst hs; rfl
  | succ n ih =>
    intro s hs
    cases s with
    | nil => rfl
    | cons c rest =>
      simp only [pySplit, pySplitGo]
      by_cases hp : sep.isPrefixOf (c :: rest) = true
      · simp only [hp, if_true]
        rw [pySplitGo_skip]
        have hne : pySplitGo sep (rest.drop (sep.length - 1)) 0 ≠ [] :=
          pySplitGo_ne_nil sep _ 0
        rw [joinSep_cons_nil_of_ne sep hne]
        have hlen : (rest.drop (sep.length - 1)).length ≤ n := by
          have h1 : (rest.drop (sep.length - 1)).length = rest.length - (sep.length - 1) :=
            List.length_drop _ _
          have h2 : rest.length ≤ n := by simpa using hs
          omega
        have hmain := ih _ hlen
        simp only [pySplit] at hmain
        rw [hmain]
        obtain ⟨t, ht⟩ := isPrefixOf_exists hp
        cases sep with
        | nil => exact absurd rfl hsep
        | cons d sep' =>
          have hc : c = d := by simpa using congrArg (List.headD · ' ') ht
          have hrest : rest = sep' ++ t := by
            have := congrArg List.tail ht
            simpa using this
          subst hc
          rw [hrest]
          simp [List.drop_left]
      · rw [Bool.not_eq_true] at hp
        simp only [hp, Bool.false_eq_true, if_false]
        cases heq : pySplitGo sep rest 0 with
        | nil => exact absurd heq (pySplitGo_ne_nil sep rest 0)
        | cons h t =>
          have hgoal : joinSep sep ((c :: h) :: t) = c :: rest := by
            rw [joinSep_cons_head]
            have hrest : joinSep sep (pySplit sep rest) = rest := by
              apply ih
              simpa using Nat.le_of_succ_le_succ hs
            rw [pySplit, heq] at hrest
            rw [hrest]
          exact hgoal

theorem pySplit_single_of_not_mem {c0 : Char} {s : List Char} (h : c0 ∉ s) :
    pySplit [c0] s = [s] := by
  induction s with
  | nil => rfl
  | cons c rest ih =>
    have hc : c0 ≠ c := fun he => h (by simp [he])
    have hrest : c0 ∉ rest := fun hm => h (by simp [hm])
    simp only [pySplit, pySplitGo]
    have hp : ([c0].isPrefixOf (c :: rest)) = false := by
      simp [List.isPrefixOf, hc]
    simp only [hp, Bool.false_eq_true, if_false]
    rw [pySplit] at ih
    rw [ih hrest]

theorem getLast?_eq_some_mem {α : Type} {l : List α} {x : α}
    (h : l.getLast? = some x) : x ∈ l := by
  induction l with
  | nil => simp at h
  | cons a t ih =>
    cases t with
    | nil => simp_all
    | cons b t2 =>
      rw [List.getLast?_cons_cons] at h
      exact List.mem_cons_of_mem a (ih h)

/-! ### Lemmas about the extractor loops -/

theorem keywordLoop_mem_ne_nil {ls : List Char} {kws : List String} :
    ∀ x ∈ keywordLoop ls kws, x ≠ [] := by
  induction kws with
  | nil => simp [keywordLoop]
  | cons kw kws ih =>
    intro x hx
    simp only [keywordLoop] at hx
    split at hx
    · split at hx
      · split at hx
        · simp at hx
        · rename_i hemp
          simp only [List.mem_singleton] at hx
          subst hx
          simpa [List.isEmpty_iff] using hemp
      · simp at hx
    · exact ih x hx

theorem hasMarker_eq_find?_isSome (kws : List String) (ls : List Char) :
    hasMarker kws ls = (kws.find? fun k => isSubstrOfL k.data ls).isSome := by
  induction kws with
  | nil => rfl
  | cons kw kws ih =>
    by_cases h : isSubstrOfL kw.data ls = true
    · simp [hasMarker, List.find?, h]
    · rw [Bool.not_eq_true] at h
      simp only [hasMarker, List.any_cons, h, Bool.false_or, List.find?]
      exact ih

theorem keywordLoop_eq_of_find? {kws : List String} {ls : List Char} {kw : String}
    (hfind : kws.find? (fun k => isSubstrOfL k.data ls) = some kw)
    {rest : List Char} (hafter : afterFirst kw.data ls = some rest) :
    keywordLoop ls kws = if (stripL rest).isEmpty then [] else [stripL rest] := by
  induction kws with
  | nil => simp at hfind
  | cons k0 kws ih =>
    by_cases h : isSubstrOfL k0.data ls = true
    · simp only [List.find?, h] at hfind
      have hk : k0 = kw := by simpa using hfind
      subst hk
      simp [keywordLoop, h, hafter]
    · rw [Bool.not_eq_true] at h
      simp only [List.find?, h] at hfind
      simp only [keywordLoop, h, Bool.false_eq_true, if_false]
      exact ih hfind

theorem extractLoop_mem_ne_nil (kws : List String) :
    ∀ (lines : List (List Char)) (c : Bool), ∀ x ∈ extractLoop kws lines c, x ≠ [] := by
  intro lines
  induction lines with
  | nil => simp [extractLoop]
  | cons line rest ih =>
    intro c x hx
    simp only [extractLoop] at hx
    split at hx
    · rcases List.mem_append.mp hx with h1 | h2
      · exact keywordLoop_mem_ne_nil x h1
      · exact ih true x h2
    · split at hx
      · split at hx
        · simp at hx
        · rename_i hcond
          rcases List.mem_cons.mp hx with h1 | h2
          · subst h1
            intro he
            exact hcond (by simp [he])
          · exact ih c x h2
      · exact ih c x hx

theorem extractLoop_true_eq (kws : List String) :
    ∀ post : List (List Char),
      extractLoop kws post true =
        ((post.map stripL).takeWhile fun ls => !stopsCapture kws ls).flatMap
          (lineContribution kws) := by
  intro post
  induction post with
  | nil => simp [extractLoop]
  | cons line rest ih =>
    simp only [extractLoop, List.map_cons, List.takeWhile_cons]
    by_cases hm : hasMarker kws (stripL line) = true
    · have hstop : (!stopsCapture kws (stripL line)) = true := by
        simp [stopsCapture, hm]
      simp [hm, hstop, lineContribution, ih]
    · rw [Bool.not_eq_true] at hm
      by_cases hb : ((stripL line).isEmpty || startsWithHash (stripL line)) = true
      · have hstop : (!stopsCapture kws (stripL line)) = false := by
          simp [stopsCapture, hm, hb]
        simp [hm, hb, hstop]
      · rw [Bool.not_eq_true] at hb
        have hstop : (!stopsCapture kws (stripL line)) = true := by
          simp [stopsCapture, hm, hb]
        simp [hm, hb, hstop, lineContribution, ih]

theorem extractLoop_cons_skip {kws : List String} {line : List Char}
    (h : hasMarker kws (stripL line) = false) (rest : List (List Char)) :
    extractLoop kws (line :: rest) false = extractLoop kws rest false := by
  simp [extractLoop, h]

/-! ### Claims about the extractor -/

/-- C1 (counterexample): `extract_result_only` applied to the empty string
returns the empty string, refuting "returns a non-empty string ... for any
string input including the empty string". -/
theorem extract_result_only_empty_input : extract_result_only "" = "" := by decide

/-- C1 (amended): `extract_result_only` is total by construction and returns
a non-empty string for every non-empty input; on the empty string it returns
the input unchanged (the empty string). -/
theorem extract_result_only_ne_empty (s : String) (h : s ≠ "") :
    extract_result_only s ≠ "" := by
  have hdata : s.data ≠ [] := by
    intro hd
    apply h
    cases s with
    | mk data =>
      simp only [String.data] at hd
      rw [hd]
  have hmk : ∀ l : List Char, l ≠ [] → String.mk l ≠ "" := by
    intro l hl he
    exact hl (by simpa using congrArg String.data he)
  by_cases h1 : resultLinesTier1 s = []
  · cases hlast : (paragraphsOf s).getLast? with
    | some p =>
      have hp : p ≠ [] := by
        have hmem := getLast?_eq_some_mem hlast
        have hfil := List.mem_filter.mp hmem
        simpa [List.isEmpty_iff] using hfil.2
      have heq : extract_result_only s = String.mk p := by
        simp [extract_result_only, h1, hlast, joinSep]
      rw [heq]
      exact hmk p hp
    | none =>
      by_cases hlen : (pySplit ['。'] s.data).length > 1
      · have heq : extract_result_only s =
            String.mk ((pySplit ['。'] s.data).getD
              ((pySplit ['。'] s.data).length - 2) [] ++ ['。']) := by
          simp [extract_result_only, h1, hlast, hlen, joinSep]
        rw [heq]
        exact hmk _ (by simp)
      · have heq : extract_result_only s = String.mk s.data := by
          simp [extract_result_only, h1, hlast, hlen, joinSep]
        rw [heq]
        exact hmk _ hdata
  · have h1' : (resultLinesTier1 s).isEmpty = false := by
      simpa [List.isEmpty_iff] using h1
    have heq : extract_result_only s =
        String.mk (joinSep ['\n'] (resultLinesTier1 s)) := by
      simp [extract_result_only, h1']
    rw [heq]
    apply hmk
    exact joinSep_ne_nil h1 fun x hx => extractLoop_mem_ne_nil _ _ _ x hx

/-- C1 (witness). -/
theorem extract_result_only_ne_empty_witness : extract_result_only "x" ≠ "" :=
  extract_result_only_ne_empty "x" (by decide)

/-- C4 (counterexample): after the trigger line "結果: A", the subsequent
line "結論: B" is NOT appended verbatim (it is re-processed as a marker line
and only "B" is kept), and " C " is appended stripped, refuting "every
subsequent line is appended verbatim ... regardless of whether it itself
contains a marker". -/
theorem capture_reprocesses_marker_lines :
    extract_result_only "結果: A\n結論: B\n C \n\nD" = "A\nB\nC" ∧
    isSubstrOfL "結論: B".data
      (extract_result_only "結果: A\n結論: B\n C \n\nD").data = false ∧
    isSubstrOfL " C ".data
      (extract_result_only "結果: A\n結論: B\n C \n\nD").data = false := by
  refine ⟨by decide, by decide, by decide⟩

/-- C4 (amended): once the first trigger line has matched, each subsequent
line containing no marker is appended stripped of surrounding whitespace
until the first marker-free line that is blank or starts with `#`, which
stops capture immediately; subsequent lines that do contain a marker are
instead re-processed as trigger lines (only the trimmed text after the
first list-order marker is appended, when non-empty) and never stop
capture; when the capture set is non-empty, the captured lines joined by
newline are the result. -/
theorem capture_after_first_trigger :
    (∀ (kws : List String) (pre : List (List Char)) (trig : List Char)
        (post : List (List Char)),
      (∀ l ∈ pre, hasMarker kws (stripL l) = false) →
      hasMarker kws (stripL trig) = true →
      extractLoop kws (pre ++ trig :: post) false =
        keywordLoop (stripL trig) kws ++
          ((post.map stripL).takeWhile fun ls => !stopsCapture kws ls).flatMap
            (lineContribution kws)) ∧
    ∀ s : String, resultLinesTier1 s ≠ [] →
      extract_result_only s = String.mk (joinSep ['\n'] (resultLinesTier1 s)) := by
  constructor
  · intro kws pre trig post hpre htrig
    induction pre with
    | nil =>
      simp only [List.nil_append, extractLoop, htrig, if_true]
      rw [extractLoop_true_eq]
    | cons l pre ih =>
      rw [List.cons_append, extractLoop_cons_skip (hpre l (by simp))]
      exact ih fun x hx => hpre x (by simp [hx])
  · intro s hs
    have h1 : (resultLinesTier1 s).isEmpty = false := by
      simpa [List.isEmpty_iff] using hs
    simp [extract_result_only, h1]

/-- C4 (witness). -/
theorem capture_after_first_trigger_witness :
    extractLoop result_keywords
        (["途中".data] ++ "結果: A".data ::
          ["結論: B".data, " C ".data, "".data, "D".data]) false =
      keywordLoop (stripL "結果: A".data) result_keywords ++
        ((["結論: B".data, " C ".data, "".data, "D".data].map stripL).takeWhile
            fun ls => !stopsCapture result_keywords ls).flatMap
          (lineContribution result_keywords) :=
  capture_after_first_trigger.1 result_keywords ["途中".data] "結果: A".data
    ["結論: B".data, " C ".data, "".data, "D".data] (by decide) (by decide)

/-- C6: on a trigger line the matched marker is the first marker in the
fixed marker-list order that is a substring of the stripped line (the
`find?` hypothesis); the recorded text is the text after that marker's
first occurrence, kept only when non-empty after trimming; and capture
continues with the subsequent lines in capturing state either way. -/
theorem marker_match_first_in_list (kws : List String) (line : List Char)
    (kw : String) (rest : List Char)
    (hfind : kws.find? (fun k => isSubstrOfL k.data (stripL line)) = some kw)
    (hafter : afterFirst kw.data (stripL line) = some rest) :
    ∀ (ls : List (List Char)) (c : Bool),
      extractLoop kws (line :: ls) c =
        (if (stripL rest).isEmpty then [] else [stripL rest]) ++
          extractLoop kws ls true := by
  intro ls c
  have hm : hasMarker kws (stripL line) = true := by
    rw [hasMarker_eq_find?_isSome, hfind]
    rfl
  simp only [extractLoop, hm, if_true]
  rw [keywordLoop_eq_of_find? hfind hafter]

/-- C6 (witness): on "答え: X 結果: Y" the marker "答え:" occurs earlier in
the line, but "結果:" is matched because it comes first in the marker list;
the captured text is the trimmed text after "結果:". -/
theorem marker_match_first_in_list_witness :
    extractLoop result_keywords ["答え: X 結果: Y".data] false =
      (if (stripL " Y".data).isEmpty then [] else [stripL " Y".data]) ++
        extractLoop result_keywords [] true :=
  marker_match_first_in_list result_keywords "答え: X 結果: Y".data "結果:"
    " Y".data (by decide) (by decide) [] false

/-- C7: when tier 1 captures nothing and the non-empty trimmed paragraphs
(split on double newline) end with `p`, the extractor returns `p`. -/
theorem tier2_last_paragraph (s : String) (p : List Char)
    (h1 : resultLinesTier1 s = [])
    (h2 : (paragraphsOf s).getLast? = some p) :
    extract_result_only s = String.mk p := by
  simp [extract_result_only, h1, h2, joinSep]

/-- C7 (witness): the spec example. -/
theorem tier2_last_paragraph_witness :
    extract_result_only "段落1\n\n段落2\n\n段落3" = "段落3" :=
  tier2_last_paragraph "段落1\n\n段落2\n\n段落3" "段落3".data (by decide) (by decide)

/-- C8: when tiers 1 and 2 both produce nothing, the extractor splits on the
full-width period "。": with more than one piece it returns the
second-to-last piece with a trailing "。" appended, with a single piece it
returns the original text unmodified; and the spec example on
"説明のみで終わる文章です。" returns the input unchanged. -/
theorem tier3_second_to_last_sentence :
    (∀ s : String, resultLinesTier1 s = [] → paragraphsOf s = [] →
      extract_result_only s =
        if (pySplit ['。'] s.data).length > 1 then
          String.mk ((pySplit ['。'] s.data).getD
            ((pySplit ['。'] s.data).length - 2) [] ++ ['。'])
        else s) ∧
    extract_result_only "説明のみで終わる文章です。" = "説明のみで終わる文章です。" := by
  constructor
  · intro s h1 h2
    have hlast : (paragraphsOf s).getLast? = none := by rw [h2]; rfl
    by_cases hlen : (pySplit ['。'] s.data).length > 1
    · simp [extract_result_only, h1, hlast, hlen, joinSep]
    · simp only [extract_result_only, resultLinesTier1] at *
      simp [h1, hlast, hlen, joinSep]
  · decide

/-- C8 (witness): an all-whitespace input reaches tier 3 and, containing no
"。", is returned unchanged. -/
theorem tier3_second_to_last_sentence_witness : extract_result_only " " = " " := by
  have h := tier3_second_to_last_sentence.1 " " (by decide) (by decide)
  rw [if_neg (by decide)] at h
  exact h

/-- C9: whenever tier 1 captured nothing and tier 2 found no non-empty
paragraph, every character of the input is whitespace; consequently the
input contains no "。", splitting on "。" yields a single piece (so the
second-to-last-sentence branch of tier 3 is unreachable) and the extractor
returns the input unchanged. -/
theorem tier3_reached_only_whitespace (s : String)
    (h1 : resultLinesTier1 s = []) (h2 : paragraphsOf s = []) :
    (∀ c ∈ s.data, pyIsSpace c) ∧ pySplit ['。'] s.data = [s.data] ∧
      extract_result_only s = s := by
  have hws : ∀ c ∈ s.data, pyIsSpace c := by
    intro c hc
    have hrec : joinSep ['\n', '\n'] (pySplit ['\n', '\n'] s.data) = s.data :=
      joinSep_pySplit (by simp) s.data
    rw [← hrec] at hc
    rcases mem_joinSep hc with ⟨x, hx, hcx⟩ | hsep
    · have hfil : ∀ a ∈ pySplit ['\n', '\n'] s.data, stripL a = [] := by
        simpa [paragraphsOf] using h2
      exact stripL_eq_nil (hfil x hx) c hcx
    · have hcn : c = '\n' := by simpa using hsep
      simp [hcn, pyIsSpace]
  have hnoperiod : '。' ∉ s.data := by
    intro hmem
    have := hws '。' hmem
    simp [pyIsSpace] at this
  have hsplit : pySplit ['。'] s.data = [s.data] :=
    pySplit_single_of_not_mem hnoperiod
  refine ⟨hws, hsplit, ?_⟩
  have hlast : (paragraphsOf s).getLast? = none := by rw [h2]; rfl
  have hlen : ¬ (pySplit ['。'] s.data).length > 1 := by
    rw [hsplit]; simp
  simp [extract_result_only, h1, hlast, hlen, joinSep]

/-- C9 (witness). -/
theorem tier3_reached_only_whitespace_witness :
    (∀ c ∈ ("\t" : String).data, pyIsSpace c) ∧
      pySplit ['。'] ("\t" : String).data = [("\t" : String).data] ∧
      extract_result_only "\t" = "\t" :=
  tier3_reached_only_whitespace "\t" (by decide) (by decide)

/-- C10: on "結果:" (a marker line with nothing after the marker), tier 1
captures nothing, tier 2 returns that very line as the last non-empty
paragraph, and the returned string therefore contains the marker verbatim —
the extracted result is not guaranteed to be marker-free. -/
theorem marker_only_line_returned_verbatim :
    resultLinesTier1 "結果:" = [] ∧
    (paragraphsOf "結果:").getLast? = some "結果:".data ∧
    extract_result_only "結果:" = "結果:" ∧
    isSubstrOfL "結果:".data (extract_result_only "結果:").data = true := by
  refine ⟨by decide, by decide, by decide, by decide⟩

/-! ### Lemmas about the sheet combiner -/

theorem isSubstrOfL_of_eq_append {p s : List Char} (A B : List Char)
    (h : s = A ++ (p ++ B)) : isSubstrOfL p s = true := by
  subst h
  exact isSubstrOfL_append_right A (isSubstrOfL_self_append p B)

theorem getCell_map_self (cols : List String) (g : String → Cell) (c : String) :
    getCell cols (cols.map g) c = if c ∈ cols then g c else none := by
  induction cols with
  | nil => simp [getCell]
  | cons c0 cs ih =>
    simp only [List.map_cons, getCell]
    by_cases hc : c0 = c
    · subst hc; simp
    · rw [if_neg hc, ih]
      by_cases hmem : c ∈ cs
      · rw [if_pos hmem, if_pos (by simp [hmem])]
      · have hnot : ¬ c ∈ c0 :: cs := by
          rw [List.mem_cons]
          rintro (h' | h')
          · exact hc h'.symm
          · exact hmem h'
        rw [if_neg hmem, if_neg hnot]

theorem getCell_not_mem (cols : List String) (row : List Cell) (c : String)
    (h : c ∉ cols) : getCell cols row c = none := by
  induction cols generalizing row with
  | nil => simp [getCell]
  | cons c0 cs ih =>
    cases row with
    | nil => simp [getCell]
    | cons v r =>
      have hc : c0 ≠ c := fun he => h (by simp [he])
      simp only [getCell, if_neg hc]
      exact ih r fun hm => h (by simp [hm])

theorem mem_unionCols_aux (ls : List (List String)) :
    ∀ (acc : List String) (x : String),
      (x ∈ ls.foldl (fun acc cs => acc ++ cs.filter fun c => !acc.contains c) acc ↔
        x ∈ acc ∨ ∃ cs ∈ ls, x ∈ cs) := by
  induction ls with
  | nil => simp
  | cons cs ls ih =>
    intro acc x
    simp only [List.foldl_cons]
    rw [ih]
    simp only [List.mem_append, List.mem_filter, List.mem_cons]
    constructor
    · rintro ((h | ⟨h, _⟩) | ⟨y, hy, hxy⟩)
      · exact Or.inl h
      · exact Or.inr ⟨cs, Or.inl rfl, h⟩
      · exact Or.inr ⟨y, Or.inr hy, hxy⟩
    · rintro (h | ⟨y, (rfl | hy), hxy⟩)
      · exact Or.inl (Or.inl h)
      · by_cases hacc : x ∈ acc
        · exact Or.inl (Or.inl hacc)
        · exact Or.inl (Or.inr ⟨hxy, by simp [List.contains, List.elem_iff, hacc]⟩)
      · exact Or.inr ⟨y, hy, hxy⟩

theorem mem_unionCols (ls : List (List String)) (x : String) :
    x ∈ unionCols ls ↔ ∃ cs ∈ ls, x ∈ cs := by
  rw [unionCols, mem_unionCols_aux]
  simp

theorem concatFrames_length (dfs : List Frame) :
    (concatFrames dfs).rows.length = (dfs.map fun df => df.rows.length).sum := by
  simp [concatFrames, List.length_flatMap, Function.comp_def, List.length_map]

theorem forall2_map_map {α β γ : Type} {R : β → γ → Prop} (l : List α)
    (f : α → β) (g : α → γ) (h : ∀ a ∈ l, R (f a) (g a)) :
    List.Forall₂ R (l.map f) (l.map g) := by
  induction l with
  | nil => constructor
  | cons a t ih =>
    constructor
    · exact h a (by simp)
    · exact ih fun x hx => h x (by simp [hx])

theorem forall2_flatMap {α β γ : Type} {R : β → γ → Prop} (l : List α)
    (f : α → List β) (g : α → List γ)
    (h : ∀ a ∈ l, List.Forall₂ R (f a) (g a)) :
    List.Forall₂ R (l.flatMap f) (l.flatMap g) := by
  induction l with
  | nil => constructor
  | cons a t ih =>
    simp only [List.flatMap_cons]
    exact List.rel_append (h a (by simp)) (ih fun x hx => h x (by simp [hx]))

theorem excel_ok_spec (sheets : List SourceTable)
    (h : (excel_to_markdown sheets).isOk = true) :
    (sheets.filter fun t => !t.isEmpty) ≠ [] ∧
    combinedOf sheets =
      concatFrames ((sheets.filter fun t => !t.isEmpty).map tagFrame) ∧
    labelsOf sheets = sheets.map (·.label) ∧
    mdOf sheets =
      String.join ((sheets.filter fun t => !t.isEmpty).map sheetSection) ++
        unifiedSection
          (concatFrames ((sheets.filter fun t => !t.isEmpty).map tagFrame))
          (sheets.map (·.label)) := by
  by_cases h1 :
      ((sheets.filter fun t => !t.isEmpty).any fun t => t.cols.contains "CustProg") = true
  · exfalso
    have herr : excel_to_markdown sheets = .error .custProgConflict := by
      simp only [excel_to_markdown]
      rw [if_pos h1]
    rw [herr] at h
    exact absurd h (by decide)
  · rw [Bool.not_eq_true] at h1
    by_cases h2 : ((sheets.filter fun t => !t.isEmpty).isEmpty) = true
    · exfalso
      have herr : excel_to_markdown sheets = .error .emptyInput := by
        simp only [excel_to_markdown]
        rw [if_neg (by simp only [h1]; decide), if_pos h2]
      rw [herr] at h
      exact absurd h (by decide)
    · rw [Bool.not_eq_true] at h2
      have hne : (sheets.filter fun t => !t.isEmpty) ≠ [] := by
        simpa [List.isEmpty_iff] using h2
      have hok : excel_to_markdown sheets =
          .ok (String.join ((sheets.filter fun t => !t.isEmpty).map sheetSection) ++
                 unifiedSection
                   (concatFrames ((sheets.filter fun t => !t.isEmpty).map tagFrame))
                   (sheets.map (·.label)),
               concatFrames ((sheets.filter fun t => !t.isEmpty).map tagFrame),
               sheets.map (·.label)) := by
        simp only [excel_to_markdown]
        rw [if_neg (by simp only [h1]; decide), if_neg (by simp only [h2]; decide)]
      exact ⟨hne, by simp [combinedOf, hok], by simp [labelsOf, hok], by simp [mdOf, hok]⟩

/-! ### Claims about the sheet combiner -/

/-- C5: `excel_to_markdown` applied to zero sheets, and applied to a single
sheet with zero rows, both fail hard with the empty-input error (in the
source, the unbound `combined_df` at line 85 raises `NameError`, caught at
lines 87-89 and reported as an error with a `(None, None, None)` return —
a hard failure, not a silent empty result). -/
theorem combine_empty_inputs_fail :
    excel_to_markdown [] = .error .emptyInput ∧
    excel_to_markdown [⟨"S", [], []⟩] = .error .emptyInput :=
  ⟨rfl, rfl⟩

/-- C2 (counterexample): with one empty sheet "Empty" and one non-empty
sheet "Data", the returned label list is ["Empty", "Data"] (the empty
sheet's label DOES appear) and the unified Markdown section prints a sheet
count of 2 (the empty sheet IS counted); only the row contribution is zero.
This refutes "its label never appears in the returned label list" and "it
is excluded from the sheet count". -/
theorem excel_to_markdown_empty_sheet_visible :
    (excel_to_markdown [⟨"Empty", [], []⟩, ⟨"Data", ["A"], [[some "1"]]⟩]).toOption.map
        (fun r => r.2.2) = some ["Empty", "Data"] ∧
    isSubstrOfL "**シート数**: 2 シート".data
      (mdOf [⟨"Empty", [], []⟩, ⟨"Data", ["A"], [[some "1"]]⟩]).data = true ∧
    (combinedOf [⟨"Empty", [], []⟩, ⟨"Data", ["A"], [[some "1"]]⟩]).rows.length = 1 := by
  refine ⟨by decide, by decide, by decide⟩

/-- C2 (amended): on every successful run, a sheet with zero rows
contributes zero rows to the unified table (the unified row count is the sum
over non-empty sheets only), but its label still appears in the returned
label list (which lists ALL sheets) and it is still counted in the sheet
count printed in the unified Markdown section (which prints the number of
ALL sheets). -/
theorem excel_to_markdown_labels_count_amended (sheets : List SourceTable)
    (h : (excel_to_markdown sheets).isOk = true) :
    labelsOf sheets = sheets.map (·.label) ∧
    (combinedOf sheets).rows.length =
      ((sheets.filter fun t => !t.isEmpty).map fun t => t.rows.length).sum ∧
    isSubstrOfL ("**シート数**: " ++ toString sheets.length ++ " シート").data
      (mdOf sheets).data = true := by
  obtain ⟨hne, hdf, hnames, hmd⟩ := excel_ok_spec sheets h
  refine ⟨hnames, ?_, ?_⟩
  · rw [hdf, concatFrames_length]
    simp [List.map_map, Function.comp_def, tagFrame, List.length_map]
  · rw [hmd]
    apply isSubstrOfL_of_eq_append
      ((String.join ((sheets.filter fun t => !t.isEmpty).map sheetSection)).data ++
        "## 全シート統合データ\n\n".data ++ "**総データ件数**: ".data ++
        (toString (concatFrames
          ((sheets.filter fun t => !t.isEmpty).map tagFrame)).rows.length).data ++
        " 行\n".data)
      ("\n\n".data ++
        (mdTable (concatFrames
          ((sheets.filter fun t => !t.isEmpty).map tagFrame))).data ++ "\n\n".data)
    simp [unifiedSection, String.data_append, List.append_assoc, List.length_map]

/-- C2 (witness). -/
theorem excel_to_markdown_labels_count_amended_witness :
    labelsOf [⟨"Empty", [], []⟩, ⟨"Data", ["A"], [[some "1"]]⟩] =
        ([⟨"Empty", [], []⟩, ⟨"Data", ["A"], [[some "1"]]⟩] : List SourceTable).map
          (·.label) ∧
    (combinedOf [⟨"Empty", [], []⟩, ⟨"Data", ["A"], [[some "1"]]⟩]).rows.length =
      ((([⟨"Empty", [], []⟩, ⟨"Data", ["A"], [[some "1"]]⟩] :
          List SourceTable).filter fun t => !t.isEmpty).map
        fun t => t.rows.length).sum ∧
    isSubstrOfL ("**シート数**: " ++
        toString ([⟨"Empty", [], []⟩, ⟨"Data", ["A"], [[some "1"]]⟩] :
          List SourceTable).length ++ " シート").data
      (mdOf [⟨"Empty", [], []⟩, ⟨"Data", ["A"], [[some "1"]]⟩]).data = true :=
  excel_to_markdown_labels_count_amended
    [⟨"Empty", [], []⟩, ⟨"Data", ["A"], [[some "1"]]⟩] (by decide)

/-- C3 (counterexample): with a zero-row sheet "E" that nevertheless has a
column "X" (a header-only sheet) and a data sheet "D" with column "Y", the
run succeeds and the unified columns are ["CustProg", "Y"]: the column "X"
belongs to the union of all SourceTable columns but is absent from the
unified table, refuting "its column set is the union of all SourceTable
columns plus CustProg". -/
theorem combined_cols_skip_empty_sheet_cols :
    (combinedOf [⟨"E", ["X"], []⟩, ⟨"D", ["Y"], [[some "1"]]⟩]).cols =
        ["CustProg", "Y"] ∧
    "X" ∈ ([⟨"E", ["X"], []⟩, ⟨"D", ["Y"], [[some "1"]]⟩] :
        List SourceTable).flatMap (·.cols) ∧
    "X" ∉ (combinedOf [⟨"E", ["X"], []⟩, ⟨"D", ["Y"], [[some "1"]]⟩]).cols ∧
    (excel_to_markdown [⟨"E", ["X"], []⟩, ⟨"D", ["Y"], [[some "1"]]⟩]).isOk = true := by
  refine ⟨by decide, by decide, by decide, by decide⟩

/-- C3 (amended): on every successful run, the unified table's length equals
the sum of the lengths of the retained (non-empty) sheets; the rows
correspond, in order, to the rows of the retained sheets, and each carries a
`CustProg` value equal to its originating sheet's label while every unified
column absent from that sheet (and different from `CustProg`) holds the null
marker; and the unified column set is `CustProg` plus the union of the
RETAINED sheets' columns (columns of skipped empty sheets do not appear). -/
theorem combined_table_invariants (sheets : List SourceTable)
    (h : (excel_to_markdown sheets).isOk = true) :
    (combinedOf sheets).rows.length =
      ((sheets.filter fun t => !t.isEmpty).map fun t => t.rows.length).sum ∧
    List.Forall₂
      (fun row t =>
        getCell (combinedOf sheets).cols row "CustProg" = some t.label ∧
        ∀ c ∈ (combinedOf sheets).cols, c ∉ "CustProg" :: t.cols →
          getCell (combinedOf sheets).cols row c = none)
      (combinedOf sheets).rows (rowOriginTables sheets) ∧
    (combinedOf sheets).cols.toFinset =
      insert "CustProg"
        ((sheets.filter fun t => !t.isEmpty).flatMap (·.cols)).toFinset := by
  obtain ⟨hne, hdf, -, -⟩ := excel_ok_spec sheets h
  have hcols2 : (combinedOf sheets).cols =
      unionCols ((sheets.filter fun t => !t.isEmpty).map fun t =>
        "CustProg" :: t.cols) := by
    rw [hdf]
    show unionCols (((sheets.filter fun t => !t.isEmpty).map tagFrame).map (·.cols)) = _
    rw [List.map_map]
    rfl
  have hcp : "CustProg" ∈ (combinedOf sheets).cols := by
    rw [hcols2, mem_unionCols]
    obtain ⟨t0, ht0⟩ := List.exists_mem_of_ne_nil _ hne
    exact ⟨"CustProg" :: t0.cols, List.mem_map_of_mem _ ht0, by simp⟩
  refine ⟨?_, ?_, ?_⟩
  · rw [hdf, concatFrames_length]
    simp [List.map_map, Function.comp_def, tagFrame, List.length_map]
  · rw [rowOriginTables, hdf]
    rw [hdf] at hcp
    have hrows : (concatFrames ((sheets.filter fun t => !t.isEmpty).map tagFrame)).rows =
        (sheets.filter fun t => !t.isEmpty).flatMap fun t =>
          t.rows.map fun r =>
            (concatFrames ((sheets.filter fun t => !t.isEmpty).map tagFrame)).cols.map
              (getCell ("CustProg" :: t.cols) ((some t.label : Cell) :: r)) := by
      show (((sheets.filter fun t => !t.isEmpty).map tagFrame).flatMap fun df =>
          df.rows.map fun r =>
            (concatFrames ((sheets.filter fun t => !t.isEmpty).map tagFrame)).cols.map
              (getCell df.cols r)) = _
      rw [List.flatMap_map]
      simp only [tagFrame, List.map_map, Function.comp_def]
    rw [hrows]
    apply forall2_flatMap
    intro t ht
    apply forall2_map_map
    intro r hr
    constructor
    · rw [getCell_map_self, if_pos hcp]
      simp [getCell]
    · intro c hc hcnot
      rw [getCell_map_self, if_pos hc]
      exact getCell_not_mem _ _ _ hcnot
  · ext x
    simp only [List.mem_toFinset, Finset.mem_insert]
    rw [hcols2, mem_unionCols]
    constructor
    · rintro ⟨cs, hcs, hx⟩
      rw [List.mem_map] at hcs
      obtain ⟨t, ht, rfl⟩ := hcs
      rcases List.mem_cons.mp hx with rfl | hx2
      · exact Or.inl rfl
      · exact Or.inr (List.mem_flatMap.mpr ⟨t, ht, hx2⟩)
    · rintro (rfl | hx)
      · obtain ⟨t0, ht0⟩ := List.exists_mem_of_ne_nil _ hne
        exact ⟨"CustProg" :: t0.cols, List.mem_map_of_mem _ ht0, by simp⟩
      · obtain ⟨t, ht, hx2⟩ := List.mem_flatMap.mp hx
        exact ⟨"CustProg" :: t.cols, List.mem_map_of_mem _ ht, by simp [hx2]⟩

/-- C3 (witness): two overlapping-column sheets. -/
theorem combined_table_invariants_witness :
    (combinedOf [⟨"S1", ["A", "B"], [[some "1", some "2"]]⟩,
        ⟨"S2", ["B", "C"], [[some "3", some "4"]]⟩]).rows.length =
      ((([⟨"S1", ["A", "B"], [[some "1", some "2"]]⟩,
          ⟨"S2", ["B", "C"], [[some "3", some "4"]]⟩] :
            List SourceTable).filter fun t => !t.isEmpty).map
        fun t => t.rows.length).sum ∧
    List.Forall₂
      (fun row t =>
        getCell (combinedOf [⟨"S1", ["A", "B"], [[some "1", some "2"]]⟩,
            ⟨"S2", ["B", "C"], [[some "3", some "4"]]⟩]).cols row "CustProg" =
          some t.label ∧
        ∀ c ∈ (combinedOf [⟨"S1", ["A", "B"], [[some "1", some "2"]]⟩,
            ⟨"S2", ["B", "C"], [[some "3", some "4"]]⟩]).cols,
          c ∉ "CustProg" :: t.cols →
            getCell (combinedOf [⟨"S1", ["A", "B"], [[some "1", some "2"]]⟩,
                ⟨"S2", ["B", "C"], [[some "3", some "4"]]⟩]).cols row c = none)
      (combinedOf [⟨"S1", ["A", "B"], [[some "1", some "2"]]⟩,
          ⟨"S2", ["B", "C"], [[some "3", some "4"]]⟩]).rows
      (rowOriginTables [⟨"S1", ["A", "B"], [[some "1", some "2"]]⟩,
          ⟨"S2", ["B", "C"], [[some "3", some "4"]]⟩]) ∧
    (combinedOf [⟨"S1", ["A", "B"], [[some "1", some "2"]]⟩,
        ⟨"S2", ["B", "C"], [[some "3", some "4"]]⟩]).cols.toFinset =
      insert "CustProg"
        ((([⟨"S1", ["A", "B"], [[some "1", some "2"]]⟩,
            ⟨"S2", ["B", "C"], [[some "3", some "4"]]⟩] :
              List SourceTable).filter fun t => !t.isEmpty).flatMap
          (·.cols)).toFinset :=
  combined_table_invariants
    [⟨"S1", ["A", "B"], [[some "1", some "2"]]⟩,
     ⟨"S2", ["B", "C"], [[some "3", some "4"]]⟩] (by decide)
